import Mathlib

/-!
Formal model of the bloom-detection and phenology services of the
BloomWatch backend (src/backend/services/bloom_detection_service.py and
src/backend/services/phenology_service.py).

Modelling conventions:
* Calendar dates are integers counting days.  The source stores dates as
  ISO YYYY-MM-DD strings or pandas timestamps; lexicographic comparison,
  max, and day-difference arithmetic on those agree with integer day
  arithmetic, which is what the model uses.
* Float fields are modelled as rationals.  The operations the source
  performs on them in the parts modelled here (comparison, max, mean of
  two, linear interpolation) are exact, so no rounding is modelled.
  Standard deviations involve a square root and are modelled in the reals
  where they are needed.
-/

namespace BloomWatch

/-- Record for one bloom candidate or merged bloom event, mirroring the
dict built by the three detectors in bloom_detection_service.py. -/
structure Bloom where
  start_date : Int
  peak_date : Int
  end_date : Int
  duration_days : Int
  peak_ndvi : Rat
  peak_evi : Rat
  bloom_intensity : Rat
  confidence_score : Rat
  detection_method : String
deriving DecidableEq, Repr

/-- Pairwise merge step of _merge_bloom_events (bloom_detection_service.py
lines 362-371): the accumulator keeps its start_date, peak_date and
detection_method; end_date and the four score fields take the pairwise
maximum, and duration_days is recomputed from the merged span. -/
def mergeTwo (c b : Bloom) : Bloom :=
  { c with
    end_date := max c.end_date b.end_date
    peak_ndvi := max c.peak_ndvi b.peak_ndvi
    peak_evi := max c.peak_evi b.peak_evi
    bloom_intensity := max c.bloom_intensity b.bloom_intensity
    confidence_score := max c.confidence_score b.confidence_score
    duration_days := max c.end_date b.end_date - c.start_date }

/-- Insert one bloom into a list sorted by start_date, keeping it sorted.
Helper for the model of the stable Python sort keyed on start_date. -/
def insertByStart (c : Bloom) : List Bloom → List Bloom
  | [] => [c]
  | b :: bs =>
    if c.start_date ≤ b.start_date then c :: b :: bs else b :: insertByStart c bs

/-- Model of sorting the candidate list by start_date
(bloom_detection_service.py line 350).  Insertion sort from the right is
stable, like the Python sort being modelled. -/
def sortBlooms : List Bloom → List Bloom
  | [] => []
  | b :: bs => insertByStart b (sortBlooms bs)

/-- Greedy merge scan of _merge_bloom_events (lines 352-378): the current
accumulated bloom absorbs the next candidate when that candidate starts
within 7 days of the accumulated end_date; otherwise the accumulator is
flushed and the candidate starts a new accumulator. -/
def mergeLoop (c : Bloom) : List Bloom → List Bloom
  | [] => [c]
  | b :: bs =>
    if b.start_date - c.end_date ≤ 7 then mergeLoop (mergeTwo c b) bs
    else c :: mergeLoop b bs

/-- Model of _merge_bloom_events (lines 343-387): sort candidates by
start_date, greedily merge, then keep only events whose duration_days is
at least min_bloom_duration = 14.  The final filter enforces only the
lower duration bound; no upper bound is applied. -/
def mergeBloomEvents (events : List Bloom) : List Bloom :=
  match sortBlooms events with
  | [] => []
  | c :: rest => (mergeLoop c rest).filter (fun b => decide (14 ≤ b.duration_days))

/-- Instrumented version of the greedy merge scan that also records, for
every produced event, the list of pre-merge candidates merged into it
(accumulator seed first, in scan order). -/
def mergeLoopG (c : Bloom) (grp : List Bloom) : List Bloom → List (Bloom × List Bloom)
  | [] => [(c, grp)]
  | b :: bs =>
    if b.start_date - c.end_date ≤ 7 then mergeLoopG (mergeTwo c b) (grp ++ [b]) bs
    else (c, grp) :: mergeLoopG b [b] bs

/-- Instrumented model of _merge_bloom_events before the duration filter:
each pre-filter merged event paired with its contributing candidates. -/
def mergeGroups (events : List Bloom) : List (Bloom × List Bloom) :=
  match sortBlooms events with
  | [] => []
  | c :: rest => mergeLoopG c [c] rest

/-- Maximum of a list of rationals (0 for the empty list; it is only ever
applied to nonempty lists in the statements below). -/
def maxOf : List Rat → Rat
  | [] => 0
  | x :: xs => xs.foldl max x

theorem insertByStart_perm (c : Bloom) (l : List Bloom) :
    List.Perm (insertByStart c l) (c :: l) := by
  induction l with
  | nil => simp [insertByStart]
  | cons b bs ih =>
    by_cases h : c.start_date ≤ b.start_date
    · simp [insertByStart, h]
    · simp only [insertByStart, if_neg h]
      exact (List.Perm.cons b ih).trans (List.Perm.swap c b bs)

theorem sortBlooms_perm (l : List Bloom) : List.Perm (sortBlooms l) l := by
  induction l with
  | nil => simp [sortBlooms]
  | cons b bs ih =>
    exact (insertByStart_perm b (sortBlooms bs)).trans (List.Perm.cons b ih)

theorem insertByStart_pairwise (c : Bloom) (l : List Bloom)
    (hl : l.Pairwise (fun a b => a.start_date ≤ b.start_date)) :
    (insertByStart c l).Pairwise (fun a b => a.start_date ≤ b.start_date) := by
  induction l with
  | nil => simp [insertByStart]
  | cons b bs ih =>
    rcases List.pairwise_cons.mp hl with ⟨hb, hbs⟩
    by_cases h : c.start_date ≤ b.start_date
    · simp only [insertByStart, if_pos h]
      refine List.pairwise_cons.mpr ⟨?_, hl⟩
      intro x hx
      rcases List.mem_cons.mp hx with rfl | hx
      · exact h
      · exact le_trans h (hb x hx)
    · simp only [insertByStart, if_neg h]
      refine List.pairwise_cons.mpr ⟨?_, ih hbs⟩
      intro x hx
      rcases List.mem_cons.mp ((insertByStart_perm c bs).mem_iff.mp hx) with rfl | hx
      · exact le_of_not_le h
      · exact hb x hx

theorem sortBlooms_pairwise (l : List Bloom) :
    (sortBlooms l).Pairwise (fun a b => a.start_date ≤ b.start_date) := by
  induction l with
  | nil => simp [sortBlooms]
  | cons b bs ih => exact insertByStart_pairwise b (sortBlooms bs) ih

theorem start_le_mergeLoop (c : Bloom) (l : List Bloom)
    (hl : l.Pairwise (fun a b => a.start_date ≤ b.start_date))
    (hc : ∀ x ∈ l, c.start_date ≤ x.start_date) :
    ∀ e ∈ mergeLoop c l, c.start_date ≤ e.start_date := by
  induction l generalizing c with
  | nil =>
    intro e he
    simp only [mergeLoop, List.mem_singleton] at he
    exact he ▸ le_refl _
  | cons b bs ih =>
    intro e he
    rcases List.pairwise_cons.mp hl with ⟨hb, hbs⟩
    by_cases h : b.start_date - c.end_date ≤ 7
    · simp only [mergeLoop, if_pos h] at he
      have : (mergeTwo c b).start_date ≤ e.start_date := by
        refine ih (mergeTwo c b) hbs ?_ e he
        intro x hx
        exact hc x (List.mem_cons_of_mem b hx)
      simpa [mergeTwo] using this
    · simp only [mergeLoop, if_neg h] at he
      rcases List.mem_cons.mp he with rfl | he
      · exact le_refl _
      · have hbe : b.start_date ≤ e.start_date := ih b hbs hb e he
        exact le_trans (hc b (List.mem_cons_self b bs)) hbe

theorem mergeLoop_pairwise (c : Bloom) (l : List Bloom)
    (hl : l.Pairwise (fun a b => a.start_date ≤ b.start_date))
    (hc : ∀ x ∈ l, c.start_date ≤ x.start_date) :
    (mergeLoop c l).Pairwise
      (fun a b => a.start_date ≤ b.start_date ∧ a.end_date + 7 < b.start_date) := by
  induction l generalizing c with
  | nil => simp [mergeLoop]
  | cons b bs ih =>
    rcases List.pairwise_cons.mp hl with ⟨hb, hbs⟩
    by_cases h : b.start_date - c.end_date ≤ 7
    · simp only [mergeLoop, if_pos h]
      refine ih (mergeTwo c b) hbs ?_
      intro x hx
      have := hc x (List.mem_cons_of_mem b hx)
      simpa [mergeTwo] using this
    · simp only [mergeLoop, if_neg h]
      refine List.pairwise_cons.mpr ⟨?_, ih b hbs hb⟩
      intro e he
      have hbe : b.start_date ≤ e.start_date := start_le_mergeLoop b bs hbs hb e he
      have hgap : c.end_date + 7 < b.start_date := by omega
      exact ⟨le_trans (hc b (List.mem_cons_self b bs)) hbe, lt_of_lt_of_le hgap hbe⟩

/-- Claim C2: the events returned by _merge_bloom_events are ordered
ascending by start_date, and every later event starts more than 7 days
after every earlier event ends, so the date spans do not overlap. -/
theorem merge_output_sorted_disjoint (events : List Bloom) :
    (mergeBloomEvents events).Pairwise
      (fun a b => a.start_date ≤ b.start_date ∧ a.end_date + 7 < b.start_date) := by
  unfold mergeBloomEvents
  split
  · exact List.Pairwise.nil
  · next c rest heq =>
    have hs := sortBlooms_pairwise events
    rw [heq] at hs
    rcases List.pairwise_cons.mp hs with ⟨hc, hrest⟩
    exact List.Pairwise.sublist (List.filter_sublist _) (mergeLoop_pairwise c rest hrest hc)

/-- Concrete single candidate spanning 130 days; _merge_bloom_events keeps
it unchanged, exceeding max_bloom_duration = 120. -/
def cLong : Bloom :=
  { start_date := 0, peak_date := 60, end_date := 130, duration_days := 130
    peak_ndvi := 1/2, peak_evi := 2/5, bloom_intensity := 9/20
    confidence_score := 7/10, detection_method := "threshold" }

/-- Counterexample to claim C1 as stated: the merge filter never enforces
the upper duration bound, so an event of 130 days is returned. -/
theorem merge_duration_upper_bound_fails :
    mergeBloomEvents [cLong] = [cLong] ∧ ¬ cLong.duration_days ≤ 120 := by
  constructor
  · simp [mergeBloomEvents, sortBlooms, insertByStart, mergeLoop, cLong]
  · decide

/-- Claim C1 (amended): every event returned by _merge_bloom_events has
duration_days at least min_bloom_duration = 14; the filter at line 381
checks only this lower bound. -/
theorem merge_duration_lower_bound (events : List Bloom) :
    ∀ e ∈ mergeBloomEvents events, 14 ≤ e.duration_days := by
  intro e he
  unfold mergeBloomEvents at he
  split at he
  · exact absurd he (List.not_mem_nil e)
  · exact of_decide_eq_true (List.mem_filter.mp he).2

/-- Concrete candidate with a 20-day span. -/
def cMid : Bloom :=
  { start_date := 100, peak_date := 110, end_date := 120, duration_days := 20
    peak_ndvi := 3/5, peak_evi := 1/2, bloom_intensity := 11/20
    confidence_score := 4/5, detection_method := "peak" }

theorem merge_duration_lower_bound_witness :
    cMid ∈ mergeBloomEvents [cMid] ∧ 14 ≤ cMid.duration_days :=
  ⟨by simp [mergeBloomEvents, sortBlooms, insertByStart, mergeLoop, cMid],
   merge_duration_lower_bound [cMid] cMid
     (by simp [mergeBloomEvents, sortBlooms, insertByStart, mergeLoop, cMid])⟩

theorem mergeLoopG_map_fst (c : Bloom) (grp : List Bloom) (l : List Bloom) :
    (mergeLoopG c grp l).map Prod.fst = mergeLoop c l := by
  induction l generalizing c grp with
  | nil => simp [mergeLoopG, mergeLoop]
  | cons b bs ih =>
    by_cases h : b.start_date - c.end_date ≤ 7
    · simp only [mergeLoopG, mergeLoop, if_pos h]
      exact ih _ _
    · simp only [mergeLoopG, mergeLoop, if_neg h, List.map_cons]
      rw [ih]

theorem mergeLoopG_flatten (c : Bloom) (grp : List Bloom) (l : List Bloom) :
    ((mergeLoopG c grp l).map Prod.snd).flatten = grp ++ l := by
  induction l generalizing c grp with
  | nil => simp [mergeLoopG]
  | cons b bs ih =>
    by_cases h : b.start_date - c.end_date ≤ 7
    · simp only [mergeLoopG, if_pos h]
      rw [ih, List.append_assoc, List.singleton_append]
    · simp only [mergeLoopG, if_neg h, List.map_cons, List.flatten_cons]
      rw [ih, List.singleton_append]

theorem maxOf_append (l : List Rat) (x : Rat) (h : l ≠ []) :
    maxOf (l ++ [x]) = max (maxOf l) x := by
  cases l with
  | nil => exact absurd rfl h
  | cons a as => simp [maxOf, List.foldl_append]

theorem maxOf_map_append (f : Bloom → Rat) (grp : List Bloom) (b : Bloom)
    (hne : grp ≠ []) :
    maxOf ((grp ++ [b]).map f) = max (maxOf (grp.map f)) (f b) := by
  rw [List.map_append]
  simpa using maxOf_append (grp.map f) (f b) (by simpa using hne)

theorem mergeLoopG_group_max (c : Bloom) (grp : List Bloom) (l : List Bloom)
    (hne : grp ≠ [])
    (h1 : c.peak_ndvi = maxOf (grp.map Bloom.peak_ndvi))
    (h2 : c.peak_evi = maxOf (grp.map Bloom.peak_evi))
    (h3 : c.bloom_intensity = maxOf (grp.map Bloom.bloom_intensity))
    (h4 : c.confidence_score = maxOf (grp.map Bloom.confidence_score)) :
    ∀ p ∈ mergeLoopG c grp l, p.2 ≠ [] ∧
      p.1.peak_ndvi = maxOf (p.2.map Bloom.peak_ndvi) ∧
      p.1.peak_evi = maxOf (p.2.map Bloom.peak_evi) ∧
      p.1.bloom_intensity = maxOf (p.2.map Bloom.bloom_intensity) ∧
      p.1.confidence_score = maxOf (p.2.map Bloom.confidence_score) := by
  induction l generalizing c grp with
  | nil =>
    intro p hp
    simp only [mergeLoopG, List.mem_singleton] at hp
    subst hp
    exact ⟨hne, h1, h2, h3, h4⟩
  | cons b bs ih =>
    intro p hp
    by_cases h : b.start_date - c.end_date ≤ 7
    · simp only [mergeLoopG, if_pos h] at hp
      refine ih (mergeTwo c b) (grp ++ [b]) (by simp) ?_ ?_ ?_ ?_ p hp
      · rw [maxOf_map_append _ _ _ hne]
        simp only [mergeTwo, h1]
      · rw [maxOf_map_append _ _ _ hne]
        simp only [mergeTwo, h2]
      · rw [maxOf_map_append _ _ _ hne]
        simp only [mergeTwo, h3]
      · rw [maxOf_map_append _ _ _ hne]
        simp only [mergeTwo, h4]
    · simp only [mergeLoopG, if_neg h] at hp
      rcases List.mem_cons.mp hp with rfl | hp
      · exact ⟨hne, h1, h2, h3, h4⟩
      · exact ih b [b] (by simp) (by simp [maxOf]) (by simp [maxOf])
          (by simp [maxOf]) (by simp [maxOf]) p hp

/-- Claim C3: the instrumented merge agrees with _merge_bloom_events, its
groups concatenate back to the sorted candidate list, and every merged
event carries the maximum of peak_ndvi, peak_evi, bloom_intensity and
confidence_score over exactly the candidates merged into it. -/
theorem merged_fields_are_group_maxima (events : List Bloom) :
    ((mergeGroups events).map Prod.fst).filter (fun b => decide (14 ≤ b.duration_days)) =
        mergeBloomEvents events
    ∧ ((mergeGroups events).map Prod.snd).flatten = sortBlooms events
    ∧ ∀ p ∈ mergeGroups events, p.2 ≠ [] ∧
        p.1.peak_ndvi = maxOf (p.2.map Bloom.peak_ndvi) ∧
        p.1.peak_evi = maxOf (p.2.map Bloom.peak_evi) ∧
        p.1.bloom_intensity = maxOf (p.2.map Bloom.bloom_intensity) ∧
        p.1.confidence_score = maxOf (p.2.map Bloom.confidence_score) := by
  refine ⟨?_, ?_, ?_⟩
  · cases hs : sortBlooms events with
    | nil => simp [mergeGroups, mergeBloomEvents, hs]
    | cons c rest => simp [mergeGroups, mergeBloomEvents, hs, mergeLoopG_map_fst]
  · cases hs : sortBlooms events with
    | nil => simp [mergeGroups, hs]
    | cons c rest => simp [mergeGroups, hs, mergeLoopG_flatten]
  · intro p hp
    rcases hs : sortBlooms events with _ | ⟨c, rest⟩
    · rw [mergeGroups, hs] at hp
      exact absurd hp (List.not_mem_nil p)
    · rw [mergeGroups, hs] at hp
      exact mergeLoopG_group_max c [c] rest (by simp) (by simp [maxOf])
        (by simp [maxOf]) (by simp [maxOf]) (by simp [maxOf]) p hp

/-- Concrete candidate starting at day 0: peak on day 10 with NDVI 1/2. -/
def cA : Bloom :=
  { start_date := 0, peak_date := 10, end_date := 20, duration_days := 20
    peak_ndvi := 1/2, peak_evi := 2/5, bloom_intensity := 9/20
    confidence_score := 7/10, detection_method := "threshold" }

/-- Concrete candidate starting at day 22 (within the 7-day merge gap of
cA): peak on day 30 with NDVI 9/10. -/
def cB : Bloom :=
  { start_date := 22, peak_date := 30, end_date := 40, duration_days := 18
    peak_ndvi := 9/10, peak_evi := 1/2, bloom_intensity := 7/10
    confidence_score := 4/5, detection_method := "peak" }

theorem merged_fields_are_group_maxima_witness :
    (mergeTwo cA cB, [cA, cB]) ∈ mergeGroups [cA, cB]
    ∧ (mergeTwo cA cB).peak_ndvi = maxOf ([cA, cB].map Bloom.peak_ndvi)
    ∧ (mergeTwo cA cB).peak_evi = maxOf ([cA, cB].map Bloom.peak_evi)
    ∧ (mergeTwo cA cB).bloom_intensity = maxOf ([cA, cB].map Bloom.bloom_intensity)
    ∧ (mergeTwo cA cB).confidence_score = maxOf ([cA, cB].map Bloom.confidence_score) := by
  have hmem : (mergeTwo cA cB, [cA, cB]) ∈ mergeGroups [cA, cB] := by
    simp [mergeGroups, sortBlooms, insertByStart, mergeLoopG, cA, cB]
  have h := (merged_fields_are_group_maxima [cA, cB]).2.2 (mergeTwo cA cB, [cA, cB]) hmem
  exact ⟨hmem, h.2.1, h.2.2.1, h.2.2.2.1, h.2.2.2.2⟩

/-- Claim C10: merging updates only end_date, duration_days and the four
score fields; start_date, peak_date and detection_method stay those of the
accumulator (the earliest-sorted contributor).  On the concrete pair cA,
cB the merged event reports peak_date 10 (from cA) together with the
peak_ndvi of cB, whose peak is on day 30, so the reported peak_ndvi does
not occur on the reported peak_date. -/
theorem merge_frame_preserves_identity_fields :
    (∀ c b : Bloom, (mergeTwo c b).start_date = c.start_date
      ∧ (mergeTwo c b).peak_date = c.peak_date
      ∧ (mergeTwo c b).detection_method = c.detection_method
      ∧ (mergeTwo c b).end_date = max c.end_date b.end_date
      ∧ (mergeTwo c b).duration_days = max c.end_date b.end_date - c.start_date
      ∧ (mergeTwo c b).peak_ndvi = max c.peak_ndvi b.peak_ndvi
      ∧ (mergeTwo c b).peak_evi = max c.peak_evi b.peak_evi
      ∧ (mergeTwo c b).bloom_intensity = max c.bloom_intensity b.bloom_intensity
      ∧ (mergeTwo c b).confidence_score = max c.confidence_score b.confidence_score)
    ∧ mergeBloomEvents [cA, cB] = [mergeTwo cA cB]
    ∧ (mergeTwo cA cB).peak_date = cA.peak_date
    ∧ (mergeTwo cA cB).peak_ndvi = cB.peak_ndvi
    ∧ cB.peak_date ≠ cA.peak_date
    ∧ cA.peak_ndvi < cB.peak_ndvi := by
  refine ⟨fun c b => ⟨rfl, rfl, rfl, rfl, rfl, rfl, rfl, rfl, rfl⟩, ?_, rfl, ?_, ?_, ?_⟩
  · simp [mergeBloomEvents, sortBlooms, insertByStart, mergeLoop, mergeTwo, cA, cB]
  · show max cA.peak_ndvi cB.peak_ndvi = cB.peak_ndvi
    exact max_eq_right (by norm_num [cA, cB])
  · norm_num [cA, cB]
  · norm_num [cA, cB]

/-- Raw satellite observation as received by detect_bloom_events: a date
plus possibly-missing ndvi and evi values (missing or NaN modelled as
none). -/
structure RawObs where
  date : Int
  ndvi : Option Rat
  evi : Option Rat
deriving DecidableEq, Repr

/-- Cleaned row after _clean_time_series: the pandas label (position in
the sorted raw frame, kept by dropna) together with the date and the two
interpolated index values. -/
structure CleanedRow where
  label : Nat
  date : Int
  ndvi : Rat
  evi : Rat
deriving DecidableEq, Repr

/-- Row after _smooth_time_series adds the ndvi_smooth and evi_smooth
columns. -/
structure SRow where
  label : Nat
  date : Int
  ndvi : Rat
  evi : Rat
  ndvi_smooth : Rat
  evi_smooth : Rat
deriving DecidableEq, Repr

/-- Stable insertion of a raw observation into a list sorted by date. -/
def insertByDate (c : RawObs) : List RawObs → List RawObs
  | [] => [c]
  | b :: bs => if c.date ≤ b.date then c :: b :: bs else b :: insertByDate c bs

/-- Model of df.sort_values(date).reset_index(drop=True)
(bloom_detection_service.py line 53): stable sort ascending by date. -/
def sortByDate : List RawObs → List RawObs
  | [] => []
  | b :: bs => insertByDate b (sortByDate bs)

/-- Range mask of _clean_time_series lines 169-172: values outside [-1, 1]
become missing. -/
def maskRange (v : Option Rat) : Option Rat :=
  match v with
  | none => none
  | some x => if x < -1 ∨ 1 < x then none else some x

/-- Positions and values of the present entries of an optional column. -/
def someEntries (l : List (Option Rat)) : List (Nat × Rat) :=
  l.enum.filterMap fun p =>
    match p.2 with
    | some v => some (p.1, v)
    | none => none

/-- Value that pandas Series.interpolate(method=linear, limit=3) assigns
at position i: present values stay; a missing value is filled only when a
present value exists before it and at most 3 missing samples separate it
from that anchor (limit=3, forward fill direction); between two anchors
the fill is linear in position (method linear ignores the index), and
after the last anchor the fill repeats the anchor value (pandas fills
trailing missing values this way); missing values before the first
present value stay missing. -/
def interpAt (l : List (Option Rat)) (i : Nat) : Option Rat :=
  match l.getD i none with
  | some x => some x
  | none =>
    match (someEntries (l.take i)).getLast? with
    | none => none
    | some (pi, a) =>
      if 3 < i - pi then none
      else
        match (someEntries (l.drop (i + 1))).head? with
        | some (j, b) =>
            some (a + (b - a) * (((i : Rat) - (pi : Rat)) / (((i + 1 + j : Nat) : Rat) - (pi : Rat))))
        | none => some a

/-- Model of one column of the interpolation step of _clean_time_series
(lines 175-176). -/
def interpolateCol (l : List (Option Rat)) : List (Option Rat) :=
  (List.range l.length).map (interpAt l)

/-- Model of _clean_time_series (lines 165-185) applied to the sorted
frame: mask out-of-range values, interpolate each column, then drop rows
in which either column is still missing (dropna keeps the original row
labels). -/
def cleanTimeSeries (l : List RawObs) : List CleanedRow :=
  let nc := interpolateCol (l.map fun r => maskRange r.ndvi)
  let ec := interpolateCol (l.map fun r => maskRange r.evi)
  (((l.map RawObs.date).zip (nc.zip ec)).enum).filterMap fun p =>
    match p.2.2.1, p.2.2.2 with
    | some nv, some ev => some ⟨p.1, p.2.1, nv, ev⟩
    | _, _ => none

/-- Adaptive Savitzky-Golay window of _smooth_time_series lines 191-193:
min(11, n // 3), bumped to the next odd number when even. -/
def adaptiveWindow (n : Nat) : Nat :=
  let w := min 11 (n / 3)
  if w % 2 = 0 then w + 1 else w

/-- Model of _smooth_time_series (lines 187-208).  The Savitzky-Golay
filter itself is external library code (scipy.signal.savgol_filter) and is
modelled as an abstract column smoother sg taking the column and the
window length; when the adaptive window is below 5 the source copies the
raw columns unchanged. -/
def smoothTimeSeries (sg : List Rat → Nat → List Rat) (df : List CleanedRow) : List SRow :=
  let w := adaptiveWindow df.length
  if 5 ≤ w then
    let ns := sg (df.map CleanedRow.ndvi) w
    let es := sg (df.map CleanedRow.evi) w
    (df.zip (ns.zip es)).map fun p =>
      ⟨p.1.label, p.1.date, p.1.ndvi, p.1.evi, p.2.1, p.2.2⟩
  else
    df.map fun r => ⟨r.label, r.date, r.ndvi, r.evi, r.ndvi, r.evi⟩

/-- SeriesPreprocessor pipeline of detect_bloom_events lines 51-59: sort
by date, clean, smooth. -/
def preprocess (sg : List Rat → Nat → List Rat) (raw : List RawObs) : List SRow :=
  smoothTimeSeries sg (cleanTimeSeries (sortByDate raw))

theorem insertByDate_perm (c : RawObs) (l : List RawObs) :
    List.Perm (insertByDate c l) (c :: l) := by
  induction l with
  | nil => simp [insertByDate]
  | cons b bs ih =>
    by_cases h : c.date ≤ b.date
    · simp [insertByDate, h]
    · simp only [insertByDate, if_neg h]
      exact (List.Perm.cons b ih).trans (List.Perm.swap c b bs)

theorem insertByDate_pairwise (c : RawObs) (l : List RawObs)
    (hl : l.Pairwise (fun a b => a.date ≤ b.date)) :
    (insertByDate c l).Pairwise (fun a b => a.date ≤ b.date) := by
  induction l with
  | nil => simp [insertByDate]
  | cons b bs ih =>
    rcases List.pairwise_cons.mp hl with ⟨hb, hbs⟩
    by_cases h : c.date ≤ b.date
    · simp only [insertByDate, if_pos h]
      refine List.pairwise_cons.mpr ⟨?_, hl⟩
      intro x hx
      rcases List.mem_cons.mp hx with rfl | hx
      · exact h
      · exact le_trans h (hb x hx)
    · simp only [insertByDate, if_neg h]
      refine List.pairwise_cons.mpr ⟨?_, ih hbs⟩
      intro x hx
      rcases List.mem_cons.mp ((insertByDate_perm c bs).mem_iff.mp hx) with rfl | hx
      · exact le_of_not_le h
      · exact hb x hx

theorem sortByDate_pairwise (l : List RawObs) :
    (sortByDate l).Pairwise (fun a b => a.date ≤ b.date) := by
  induction l with
  | nil => simp [sortByDate]
  | cons b bs ih => exact insertByDate_pairwise b (sortByDate bs) ih

theorem someEntries_spec (l : List (Option Rat)) (p : Nat × Rat)
    (hp : p ∈ someEntries l) :
    p.1 < l.length ∧ l.getD p.1 none = some p.2 := by
  rcases List.mem_filterMap.mp hp with ⟨q, hq, hmatch⟩
  rcases q with ⟨i, v⟩
  cases v with
  | none => simp at hmatch
  | some x =>
    simp only [Option.some.injEq] at hmatch
    rcases List.mem_enum hq with ⟨hi, hv⟩
    subst hmatch
    exact ⟨hi, by rw [List.getD_eq_getElem _ _ hi, ← hv]⟩

theorem convex_bound (lo hi a b t : Rat)
    (ha1 : lo ≤ a) (ha2 : a ≤ hi) (hb1 : lo ≤ b) (hb2 : b ≤ hi)
    (ht1 : 0 ≤ t) (ht2 : t ≤ 1) :
    lo ≤ a + (b - a) * t ∧ a + (b - a) * t ≤ hi := by
  constructor <;> nlinarith

theorem interpAt_bounds (l : List (Option Rat)) (lo hi : Rat)
    (hl : ∀ x : Rat, some x ∈ l → lo ≤ x ∧ x ≤ hi)
    (i : Nat) (y : Rat) (hy : interpAt l i = some y) :
    lo ≤ y ∧ y ≤ hi := by
  unfold interpAt at hy
  cases hgd : l.getD i none with
  | some x =>
    simp only [hgd, Option.some.injEq] at hy
    subst hy
    have hlen : i < l.length := by
      by_contra hge
      rw [List.getD_eq_getElem?_getD, List.getElem?_eq_none (by omega)] at hgd
      simp at hgd
    refine hl x ?_
    rw [List.getD_eq_getElem _ _ hlen] at hgd
    exact hgd ▸ List.getElem_mem hlen
  | none =>
    simp only [hgd] at hy
    cases hlast : (someEntries (l.take i)).getLast? with
    | none => simp [hlast] at hy
    | some pa =>
      rcases pa with ⟨pi, a⟩
      simp only [hlast] at hy
      have hpa := someEntries_spec (l.take i) (pi, a) (List.mem_of_mem_getLast? hlast)
      have hpilt : pi < i := lt_of_lt_of_le hpa.1 (by simp [List.length_take])
      have hamem : some a ∈ l := by
        have := hpa.2
        rw [List.getD_eq_getElem _ _ hpa.1] at this
        rw [List.getElem_take] at this
        exact this ▸ List.getElem_mem (by
          have := hpa.1
          simp only [List.length_take] at this
          omega)
      have hab := hl a hamem
      by_cases hlim : 3 < i - pi
      · rw [if_pos hlim] at hy; simp at hy
      · rw [if_neg hlim] at hy
        cases hhead : (someEntries (l.drop (i + 1))).head? with
        | none =>
          simp only [hhead, Option.some.injEq] at hy
          subst hy
          exact hab
        | some pb =>
          rcases pb with ⟨j, b⟩
          simp only [hhead] at hy
          have hpb := someEntries_spec (l.drop (i + 1)) (j, b) (List.mem_of_mem_head? hhead)
          have hbmem : some b ∈ l := by
            have h2 := hpb.2
            rw [List.getD_eq_getElem _ _ hpb.1] at h2
            rw [List.getElem_drop] at h2
            exact h2 ▸ List.getElem_mem (by
              have := hpb.1
              simp only [List.length_drop] at this
              omega)
          have hbb := hl b hbmem
          simp only [Option.some.injEq] at hy
          subst hy
          have hnum : (0 : Rat) ≤ (i : Rat) - (pi : Rat) := by
            have : (pi : Rat) ≤ (i : Rat) := by exact_mod_cast le_of_lt hpilt
            linarith
          have hden : ((i : Rat) - (pi : Rat)) ≤ (((i + 1 + j : Nat) : Rat) - (pi : Rat)) := by
            have : (i : Rat) ≤ ((i + 1 + j : Nat) : Rat) := by
              push_cast
              linarith [Nat.cast_nonneg (α := Rat) j]
            linarith
          have hdenpos : (0 : Rat) < (((i + 1 + j : Nat) : Rat) - (pi : Rat)) := by
            have h1 : ((pi : Nat) : Rat) < ((i + 1 + j : Nat) : Rat) := by
              exact_mod_cast (by omega : pi < i + 1 + j)
            linarith
          have ht1 : (0 : Rat) ≤ ((i : Rat) - (pi : Rat)) / (((i + 1 + j : Nat) : Rat) - (pi : Rat)) :=
            div_nonneg hnum (le_of_lt hdenpos)
          have ht2 : ((i : Rat) - (pi : Rat)) / (((i + 1 + j : Nat) : Rat) - (pi : Rat)) ≤ 1 :=
            (div_le_one hdenpos).mpr hden
          exact convex_bound lo hi a b _ hab.1 hab.2 hbb.1 hbb.2 ht1 ht2

theorem interpolateCol_bounds (l : List (Option Rat)) (lo hi : Rat)
    (hl : ∀ x : Rat, some x ∈ l → lo ≤ x ∧ x ≤ hi)
    (y : Rat) (hy : some y ∈ interpolateCol l) :
    lo ≤ y ∧ y ≤ hi := by
  rcases List.mem_map.mp hy with ⟨i, _, hint⟩
  exact interpAt_bounds l lo hi hl i y hint

theorem interpolateCol_length (l : List (Option Rat)) :
    (interpolateCol l).length = l.length := by
  simp [interpolateCol]

theorem maskRange_bounds (v : Option Rat) (x : Rat) (h : maskRange v = some x) :
    -1 ≤ x ∧ x ≤ 1 := by
  cases v with
  | none => simp [maskRange] at h
  | some w =>
    simp only [maskRange] at h
    by_cases hw : w < -1 ∨ 1 < w
    · rw [if_pos hw] at h; simp at h
    · rw [if_neg hw] at h
      simp only [Option.some.injEq] at h
      subst h
      push_neg at hw
      exact ⟨hw.1, hw.2⟩

theorem filterMap_map_sublist {α β γ : Type} (f : α → Option β) (g : β → γ) (k : α → γ)
    (l : List α) (h : ∀ a b, f a = some b → g b = k a) :
    List.Sublist ((l.filterMap f).map g) (l.map k) := by
  induction l with
  | nil => simp
  | cons a as ih =>
    cases hfa : f a with
    | none =>
      simp only [List.filterMap_cons, hfa, List.map_cons]
      exact ih.cons (k a)
    | some b =>
      simp only [List.filterMap_cons, hfa, List.map_cons, h a b hfa]
      exact ih.cons₂ (k a)

theorem zip_fst_sublist {α β : Type} (l : List α) (q : List β) :
    List.Sublist ((l.zip q).map Prod.fst) l := by
  induction l generalizing q with
  | nil => simp
  | cons a as ih =>
    cases q with
    | nil => simp
    | cons b bs =>
      simp only [List.zip_cons_cons, List.map_cons]
      exact (ih bs).cons₂ a

theorem zip_enum_dates {β : Type} (dates : List Int) (q : List β)
    (hlen : dates.length ≤ q.length) :
    ((dates.zip q).enum).map (fun p => p.2.1) = dates := by
  have h1 : ((dates.zip q).enum).map (fun p => p.2.1)
      = ((dates.zip q).enum.map Prod.snd).map (fun r => r.1) := by
    rw [List.map_map]
    rfl
  rw [h1, List.enum_map_snd]
  exact List.map_fst_zip dates q hlen

theorem cleanTimeSeries_dates_sublist (l : List RawObs) :
    List.Sublist ((cleanTimeSeries l).map (fun r => r.date)) (l.map RawObs.date) := by
  simp only [cleanTimeSeries]
  refine List.Sublist.trans
    (filterMap_map_sublist _ (fun r : CleanedRow => r.date)
      (fun p : Nat × (Int × (Option Rat × Option Rat)) => p.2.1) _ ?_) ?_
  · intro p r hpr
    rcases p with ⟨i, d, n, e⟩
    cases n with
    | none => simp at hpr
    | some nv =>
      cases e with
      | none => simp at hpr
      | some ev =>
        simp only [Option.some.injEq] at hpr
        rw [← hpr]
  · have hlen : (l.map RawObs.date).length ≤
        ((interpolateCol (l.map fun r => maskRange r.ndvi)).zip
          (interpolateCol (l.map fun r => maskRange r.evi))).length := by
      simp [interpolateCol_length, List.length_zip]
    rw [zip_enum_dates _ _ hlen]

theorem cleanTimeSeries_bounds (l : List RawObs) (r : CleanedRow)
    (hr : r ∈ cleanTimeSeries l) :
    -1 ≤ r.ndvi ∧ r.ndvi ≤ 1 ∧ -1 ≤ r.evi ∧ r.evi ≤ 1 := by
  unfold cleanTimeSeries at hr
  rcases List.mem_filterMap.mp hr with ⟨p, hp, hmatch⟩
  rcases p with ⟨i, d, n, e⟩
  cases n with
  | none => simp at hmatch
  | some nv =>
    cases e with
    | none => simp at hmatch
    | some ev =>
      simp only [Option.some.injEq] at hmatch
      rcases List.mem_enum hp with ⟨hi, hv⟩
      have hzmem : (d, (some nv, some ev)) ∈
          (l.map RawObs.date).zip
            ((interpolateCol (l.map fun s => maskRange s.ndvi)).zip
              (interpolateCol (l.map fun s => maskRange s.evi))) :=
        hv ▸ List.getElem_mem hi
      have hpair := List.of_mem_zip hzmem
      have hnc := (List.of_mem_zip hpair.2).1
      have hec := (List.of_mem_zip hpair.2).2
      have hmaskn : ∀ x : Rat, some x ∈ l.map (fun s => maskRange s.ndvi) →
          -1 ≤ x ∧ x ≤ 1 := by
        intro x hx
        rcases List.mem_map.mp hx with ⟨s, _, hms⟩
        exact maskRange_bounds _ _ hms
      have hmaske : ∀ x : Rat, some x ∈ l.map (fun s => maskRange s.evi) →
          -1 ≤ x ∧ x ≤ 1 := by
        intro x hx
        rcases List.mem_map.mp hx with ⟨s, _, hms⟩
        exact maskRange_bounds _ _ hms
      have hn := interpolateCol_bounds _ _ _ hmaskn nv hnc
      have he := interpolateCol_bounds _ _ _ hmaske ev hec
      rw [← hmatch]
      exact ⟨hn.1, hn.2, he.1, he.2⟩

theorem cleanTimeSeries_length (l : List RawObs) :
    (cleanTimeSeries l).length ≤ l.length := by
  unfold cleanTimeSeries
  refine le_trans (List.length_filterMap_le _ _) ?_
  simp [List.enum_length, List.length_zip, interpolateCol_length]

theorem sortByDate_length (l : List RawObs) : (sortByDate l).length = l.length := by
  induction l with
  | nil => rfl
  | cons b bs ih =>
    simp only [sortByDate]
    rw [(insertByDate_perm b (sortByDate bs)).length_eq]
    simp [ih]

theorem smoothTimeSeries_dates_sublist (sg : List Rat → Nat → List Rat)
    (df : List CleanedRow) :
    List.Sublist ((smoothTimeSeries sg df).map (fun r => r.date))
      (df.map (fun r => r.date)) := by
  unfold smoothTimeSeries
  by_cases h : 5 ≤ adaptiveWindow df.length
  · rw [if_pos h]
    have h1 : ∀ (q : List (Rat × Rat)),
        ((df.zip q).map fun p =>
            (⟨p.1.label, p.1.date, p.1.ndvi, p.1.evi, p.2.1, p.2.2⟩ : SRow)).map
          (fun r => r.date) = ((df.zip q).map Prod.fst).map (fun r => r.date) := by
      intro q
      rw [List.map_map, List.map_map]
      rfl
    rw [h1]
    exact (zip_fst_sublist df _).map _
  · rw [if_neg h]
    rw [List.map_map]
    exact List.Sublist.refl _

theorem smoothTimeSeries_mem (sg : List Rat → Nat → List Rat)
    (df : List CleanedRow) (r : SRow) (hr : r ∈ smoothTimeSeries sg df) :
    ∃ c ∈ df, r.ndvi = c.ndvi ∧ r.evi = c.evi := by
  unfold smoothTimeSeries at hr
  by_cases h : 5 ≤ adaptiveWindow df.length
  · rw [if_pos h] at hr
    rcases List.mem_map.mp hr with ⟨p, hp, hrp⟩
    exact ⟨p.1, (List.of_mem_zip hp).1, by rw [← hrp], by rw [← hrp]⟩
  · rw [if_neg h] at hr
    rcases List.mem_map.mp hr with ⟨c, hc, hrc⟩
    exact ⟨c, hc, by rw [← hrc], by rw [← hrc]⟩

theorem smoothTimeSeries_length (sg : List Rat → Nat → List Rat)
    (df : List CleanedRow) :
    (smoothTimeSeries sg df).length ≤ df.length := by
  unfold smoothTimeSeries
  by_cases h : 5 ≤ adaptiveWindow df.length
  · rw [if_pos h]
    simp [List.length_zip]
  · rw [if_neg h]
    simp

theorem adaptiveWindow_lt_five (n : Nat) (h : n ≤ 11) : adaptiveWindow n < 5 := by
  unfold adaptiveWindow
  have h3 : n / 3 ≤ 3 := by omega
  by_cases he : min 11 (n / 3) % 2 = 0 <;> simp only [he, if_pos, if_neg, if_true, if_false] <;> omega

/-- Claim C5 (amended): the preprocessed series has nondecreasing dates
(duplicate dates are retained, not deduplicated), raw ndvi and evi values
in [-1, 1], length at most the input length, and when the cleaned frame
has at most 11 rows (adaptive smoothing window below 5) the smoothed
columns equal the raw columns unchanged.  The statement is universal over
the external column smoother sg, about which nothing is assumed. -/
theorem preprocess_invariants (sg : List Rat → Nat → List Rat) (raw : List RawObs) :
    (preprocess sg raw).Pairwise (fun a b => a.date ≤ b.date)
    ∧ (∀ r ∈ preprocess sg raw, -1 ≤ r.ndvi ∧ r.ndvi ≤ 1 ∧ -1 ≤ r.evi ∧ r.evi ≤ 1)
    ∧ (preprocess sg raw).length ≤ raw.length
    ∧ ((cleanTimeSeries (sortByDate raw)).length ≤ 11 →
        ∀ r ∈ preprocess sg raw, r.ndvi_smooth = r.ndvi ∧ r.evi_smooth = r.evi) := by
  refine ⟨?_, ?_, ?_, ?_⟩
  · have h1 : List.Pairwise (fun a b : Int => a ≤ b) ((sortByDate raw).map RawObs.date) :=
      List.pairwise_map.mpr (sortByDate_pairwise raw)
    have h2 := List.Pairwise.sublist (cleanTimeSeries_dates_sublist (sortByDate raw)) h1
    have h3 := List.Pairwise.sublist
      (smoothTimeSeries_dates_sublist sg (cleanTimeSeries (sortByDate raw))) h2
    exact List.pairwise_map.mp h3
  · intro r hr
    obtain ⟨c, hc, hn, he⟩ := smoothTimeSeries_mem sg _ r hr
    have hb := cleanTimeSeries_bounds _ c hc
    rw [hn, he]
    exact hb
  · exact le_trans (smoothTimeSeries_length sg _)
      (le_trans (cleanTimeSeries_length _) (le_of_eq (sortByDate_length raw)))
  · intro h11 r hr
    unfold preprocess smoothTimeSeries at hr
    rw [if_neg (by
      have := adaptiveWindow_lt_five _ h11
      omega)] at hr
    rcases List.mem_map.mp hr with ⟨c, _, hrc⟩
    rw [← hrc]
    exact ⟨rfl, rfl⟩

/-- Concrete raw input with two valid observations on the same date. -/
def rawDup : List RawObs :=
  [{ date := 5, ndvi := some 0, evi := some 0 },
   { date := 5, ndvi := some 0, evi := some 0 }]

/-- Counterexample to claim C5 as stated: neither the sort nor the
cleaning deduplicates dates, so a raw input with two valid rows on day 5
yields a cleaned series whose dates are not strictly ascending. -/
theorem cleaned_dates_not_strictly_ascending :
    (preprocess (fun l _ => l) rawDup).map (fun r => r.date) = [5, 5]
    ∧ ¬ (preprocess (fun l _ => l) rawDup).Pairwise (fun a b => a.date < b.date) := by
  have hmap : (preprocess (fun l _ => l) rawDup).map (fun r => r.date) = [5, 5] := by decide
  refine ⟨hmap, fun hp => ?_⟩
  have h2 : List.Pairwise (fun a b : Int => a < b)
      ((preprocess (fun l _ => l) rawDup).map (fun r => r.date)) :=
    List.pairwise_map.mpr hp
  rw [hmap] at h2
  exact absurd ((List.pairwise_cons.mp h2).1 5 (List.mem_singleton.mpr rfl)) (lt_irrefl 5)

/-- Concrete raw input with a single valid observation. -/
def rawSingle : List RawObs := [{ date := 0, ndvi := some 0, evi := some 0 }]

/-- Concrete cleaned and smoothed row produced from rawSingle. -/
def rowSingle : SRow :=
  { label := 0, date := 0, ndvi := 0, evi := 0, ndvi_smooth := 0, evi_smooth := 0 }

theorem preprocess_invariants_witness :
    (cleanTimeSeries (sortByDate rawSingle)).length ≤ 11
    ∧ rowSingle ∈ preprocess (fun l _ => l) rawSingle
    ∧ -1 ≤ rowSingle.ndvi ∧ rowSingle.ndvi ≤ 1
    ∧ rowSingle.ndvi_smooth = rowSingle.ndvi ∧ rowSingle.evi_smooth = rowSingle.evi := by
  have h11 : (cleanTimeSeries (sortByDate rawSingle)).length ≤ 11 := by decide
  have hmem : rowSingle ∈ preprocess (fun l _ => l) rawSingle := by decide
  have hinv := preprocess_invariants (fun l _ => l) rawSingle
  exact ⟨h11, hmem, (hinv.2.1 rowSingle hmem).1, (hinv.2.1 rowSingle hmem).2.1,
    (hinv.2.2.2 h11 rowSingle hmem).1, (hinv.2.2.2 h11 rowSingle hmem).2⟩

/-- Configured NDVI bloom threshold (bloom_detection_service.py line 22). -/
def ndviBloomThreshold : Rat := 4/10

/-- Configured EVI bloom threshold (line 23). -/
def eviBloomThreshold : Rat := 3/10

/-- Model of _find_continuous_periods (lines 389-405): scan the mask with
the running index and an optional open run start. -/
def findPeriodsAux : List Bool → Nat → Option Nat → List (Nat × Nat)
  | [], _, none => []
  | [], i, some s => [(s, i - 1)]
  | b :: bs, i, none =>
    if b then findPeriodsAux bs (i + 1) (some i) else findPeriodsAux bs (i + 1) none
  | b :: bs, i, some s =>
    if b then findPeriodsAux bs (i + 1) (some s)
    else (s, i - 1) :: findPeriodsAux bs (i + 1) none

def findContinuousPeriods (mask : List Bool) : List (Nat × Nat) :=
  findPeriodsAux mask 0 none

/-- Bloom mask of _detect_threshold_blooms lines 216-217: smoothed NDVI
and EVI both strictly above their thresholds. -/
def bloomMask (df : List SRow) : List Bool :=
  df.map fun r =>
    decide (ndviBloomThreshold < r.ndvi_smooth) && decide (eviBloomThreshold < r.evi_smooth)

/-- Model of pandas DataFrame.iloc integer access: nonnegative positions
index from the front, negative positions from the back, anything else
raises IndexError (modelled as none). -/
def iloc (df : List SRow) (k : Int) : Option SRow :=
  if 0 ≤ k then df[k.toNat]?
  else if (-k).toNat ≤ df.length then df[df.length - (-k).toNat]?
  else none

/-- Model of Series.idxmax on the ndvi_smooth column of a row slice: the
LABEL (not the position) of the first occurrence of the maximum; pandas
raises on an empty series (none). -/
def idxmaxLabel (rows : List SRow) : Option Nat :=
  match rows with
  | [] => none
  | r :: rs =>
    some ((rs.foldl (fun best x => if best.ndvi_smooth < x.ndvi_smooth then x else best) r).label)

/-- Body of the threshold-bloom construction for one period (lines
224-240).  peak_idx = start_idx + idxmax-label - first-label mixes labels
with positions; df.iloc with that index is modelled by iloc and any
IndexError aborts the whole detector. -/
def mkThresholdBloom (df : List SRow) (s e : Nat) : Option Bloom := do
  let blm := (df.drop s).take (e + 1 - s)
  let firstRow ← blm.head?
  let lbl ← idxmaxLabel blm
  let peakIdx : Int := (s : Int) + (lbl : Int) - (firstRow.label : Int)
  let startRow ← iloc df (s : Int)
  let peakRow ← iloc df peakIdx
  let endRow ← iloc df (e : Int)
  pure
    { start_date := startRow.date
      peak_date := peakRow.date
      end_date := endRow.date
      duration_days := endRow.date - startRow.date
      peak_ndvi := peakRow.ndvi_smooth
      peak_evi := peakRow.evi_smooth
      bloom_intensity := (peakRow.ndvi_smooth + peakRow.evi_smooth) / 2
      confidence_score := 7/10
      detection_method := "threshold" }

/-- Loop of _detect_threshold_blooms over the detected periods; a failure
anywhere discards all blooms (the try/except returns [] for the whole
call). -/
def thresholdLoop (df : List SRow) : List (Nat × Nat) → Option (List Bloom)
  | [] => some []
  | (s, e) :: rest =>
    if (e : Int) - (s : Int) ≥ 2 then
      match mkThresholdBloom df s e with
      | none => none
      | some b => (thresholdLoop df rest).map fun bs => b :: bs
    else thresholdLoop df rest

/-- Model of _detect_threshold_blooms (lines 210-246). -/
def detectThresholdBlooms (df : List SRow) : List Bloom :=
  (thresholdLoop df (findContinuousPeriods (bloomMask df))).getD []

/-- Concrete cleaned series whose pandas labels have a gap (row with label
1 was dropped by _clean_time_series): labels 0, 2, 3 with dates 0, 16, 32;
the maximum smoothed NDVI 3/5 occurs on date 16. -/
def exThresholdDf : List SRow :=
  [{ label := 0, date := 0, ndvi := 1/2, evi := 2/5, ndvi_smooth := 1/2, evi_smooth := 2/5 },
   { label := 2, date := 16, ndvi := 3/5, evi := 2/5, ndvi_smooth := 3/5, evi_smooth := 2/5 },
   { label := 3, date := 32, ndvi := 1/2, evi := 2/5, ndvi_smooth := 1/2, evi_smooth := 2/5 }]

/-- Claim C6 (code divergence): on a label-gapped cleaned series the
emitted candidate reports peak_date 32 and the field values of the row at
position 2, although the maximum smoothed NDVI in the run is 3/5 and
occurs only on date 16 - idxmax returns a label, which the code adds to a
position. -/
theorem threshold_peak_label_bug :
    detectThresholdBlooms exThresholdDf =
      [{ start_date := 0, peak_date := 32, end_date := 32, duration_days := 32,
         peak_ndvi := 1/2, peak_evi := 2/5, bloom_intensity := 9/20,
         confidence_score := 7/10, detection_method := "threshold" }]
    ∧ (exThresholdDf.map fun r => r.ndvi_smooth).foldl max 0 = 3/5
    ∧ (exThresholdDf.filter fun r => decide (r.ndvi_smooth = 3/5)).map (fun r => r.date) = [16]
    ∧ (16 : Int) ≠ 32 := by
  refine ⟨?_, ?_, ?_, by decide⟩
  · norm_num [detectThresholdBlooms, thresholdLoop, mkThresholdBloom, findContinuousPeriods,
      findPeriodsAux, bloomMask, idxmaxLabel, iloc, exThresholdDf, ndviBloomThreshold,
      eviBloomThreshold, Option.bind, Int.toNat, List.getElem_cons_succ,
      List.getElem_cons_zero]
  · norm_num [exThresholdDf, max_def]
  · norm_num [exThresholdDf, List.filter]

/-- Inner plateau scan of scipy _local_maxima_1d: advance while the value
equals the candidate peak value and the hard right bound is not reached. -/
def plateauEnd (x : Nat → Rat) (imax : Nat) (xi : Rat) : Nat → Nat → Nat
  | 0, ia => ia
  | fuel + 1, ia =>
    if ia < imax ∧ x ia = xi then plateauEnd x imax xi fuel (ia + 1) else ia

/-- Main scan of scipy _local_maxima_1d: a sample (or plateau midpoint)
strictly above both neighbours is a local maximum; i runs from 1 to
imax - 1 where imax is the last index. -/
def localMaximaAux (x : Nat → Rat) (imax : Nat) : Nat → Nat → List Nat
  | 0, _ => []
  | fuel + 1, i =>
    if i < imax then
      if x (i - 1) < x i then
        let ia := plateauEnd x imax (x i) (imax + 1) (i + 1)
        if x ia < x i then
          ((i + (ia - 1)) / 2) :: localMaximaAux x imax fuel (ia + 1)
        else localMaximaAux x imax fuel (i + 1)
      else localMaximaAux x imax fuel (i + 1)
    else []

/-- Local maxima (plateau midpoints) of a column, as computed by
scipy.signal.find_peaks before any filtering. -/
def localMaxima (col : List Rat) : List Nat :=
  localMaximaAux (fun k => col.getD k 0) (col.length - 1) (col.length + 1) 1

/-- Stable insertion of an index into a list of indices sorted ascending
by priority value. -/
def insertIdxByPrio (prio : List Rat) (i : Nat) : List Nat → List Nat
  | [] => [i]
  | j :: js =>
    if prio.getD i 0 ≤ prio.getD j 0 then i :: j :: js else j :: insertIdxByPrio prio i js

/-- Ascending argsort of the priority list (numpy argsort; modelled as a
stable sort). -/
def argsortPrio (prio : List Rat) : List Nat :=
  (List.range prio.length).foldr (insertIdxByPrio prio) []

/-- scipy _select_by_peak_distance: walk the peaks from highest priority
down; a still-kept peak deactivates every other peak closer than the
minimal distance.  Because the peak positions are strictly ascending, the
two directed scans of the source are equivalent to deactivating every
k with |peaks[k] - peaks[j]| < distance, k different from j. -/
def selectByDistance (peaks : List Nat) (prio : List Rat) (dist : Nat) : List Bool :=
  ((argsortPrio prio).reverse).foldl
    (fun keep j =>
      if keep.getD j false then
        keep.enum.map fun p =>
          if p.1 ≠ j ∧ ((peaks.getD p.1 0 : Int) - (peaks.getD j 0 : Int)).natAbs < dist
          then false else p.2
      else keep)
    (List.replicate peaks.length true)

/-- scipy _peak_prominences with unrestricted window: scan left and right
from the peak while values stay at or below the peak value; the prominence
is the peak value minus the higher of the two scan minima. -/
def prominenceAt (col : List Rat) (p : Nat) : Rat :=
  let xp := col.getD p 0
  let leftMin := (((col.take (p + 1)).reverse).takeWhile fun v => decide (v ≤ xp)).foldl min xp
  let rightMin := ((col.drop p).takeWhile fun v => decide (v ≤ xp)).foldl min xp
  xp - max leftMin rightMin

/-- Model of scipy.signal.find_peaks with the arguments used at lines
254-259: local maxima, then the height filter, then the distance filter,
then the prominence filter (this is the order scipy applies them in). -/
def findPeaks (col : List Rat) (height : Rat) (dist : Nat) (pmin : Rat) : List Nat :=
  let p0 := localMaxima col
  let p1 := p0.filter fun p => decide (height ≤ col.getD p 0)
  let keep := selectByDistance p1 (p1.map fun p => col.getD p 0) dist
  let p2 := (p1.enum.filter fun q => keep.getD q.1 false).map Prod.snd
  p2.filter fun p => decide (pmin ≤ prominenceAt col p)

/-- Model of _find_bloom_start (lines 407-415): walk back from the peak;
the first sample below half the peak value ends the bloom start search. -/
def findBloomStart (x : Nat → Rat) (peakIdx initialStart : Nat) : Nat :=
  match ((List.range' initialStart (peakIdx - initialStart)).reverse).find?
      (fun i => decide (x i < x peakIdx * (1/2))) with
  | some i => i + 1
  | none => initialStart

/-- Model of _find_bloom_end (lines 417-425): walk forward from the peak;
the first sample below half the peak value ends the bloom end search. -/
def findBloomEnd (x : Nat → Rat) (peakIdx initialEnd : Nat) : Nat :=
  match (List.range' (peakIdx + 1) (initialEnd - peakIdx)).find?
      (fun i => decide (x i < x peakIdx * (1/2))) with
  | some i => i - 1
  | none => initialEnd

/-- Loop of _detect_peak_blooms (lines 261-284) over the found peaks:
window the peak by 5 samples on each side, refine the bounds, and keep the
bloom only when its duration lies in [14, 120] days. -/
def peakLoop (df : List SRow) (x : Nat → Rat) : List Nat → Option (List Bloom)
  | [] => some []
  | p :: ps => do
    let s := findBloomStart x p (p - 5)
    let e := findBloomEnd x p (min (df.length - 1) (p + 5))
    let sRow ← df[s]?
    let eRow ← df[e]?
    let pRow ← df[p]?
    let duration := eRow.date - sRow.date
    let rest ← peakLoop df x ps
    let b : Bloom :=
      { start_date := sRow.date, peak_date := pRow.date, end_date := eRow.date,
        duration_days := duration, peak_ndvi := pRow.ndvi_smooth, peak_evi := pRow.evi_smooth,
        bloom_intensity := (pRow.ndvi_smooth + pRow.evi_smooth) / 2,
        confidence_score := 8/10, detection_method := "peak" }
    if 14 ≤ duration ∧ duration ≤ 120 then pure (b :: rest) else pure rest

/-- Model of _detect_peak_blooms (lines 248-290). -/
def detectPeakBlooms (df : List SRow) : List Bloom :=
  let col := df.map SRow.ndvi_smooth
  (peakLoop df (fun k => col.getD k 0) (findPeaks col ndviBloomThreshold 3 (1/10))).getD []

/-- First differences of a column as pandas Series.diff computes them: a
missing value in front, then the consecutive differences. -/
def diffCol (l : List Rat) : List (Option Rat) :=
  match l with
  | [] => []
  | _ :: _ => none :: ((l.zip l.tail).map fun p => some (p.2 - p.1))

/-- Present entries of an optional column. -/
def validDiffs (l : List (Option Rat)) : List Rat := l.filterMap id

/-- Sample variance with ddof = 1 as pandas Series.std squares it; for
fewer than two present values pandas yields NaN, which the model treats
through the explicit guards at its use sites (0 here). -/
def sampleVar (v : List Rat) : Rat :=
  if v.length ≤ 1 then 0
  else ((v.map fun x => (x - v.sum / (v.length : Rat)) ^ 2).sum) / ((v.length : Rat) - 1)

/-- Standard deviation of the ndvi_smooth first differences
(pandas Series.std, ddof = 1): the square root lives in the reals. -/
noncomputable def ndviDiffStd (df : List SRow) : Real :=
  Real.sqrt ((sampleVar (validDiffs (diffCol (df.map SRow.ndvi_smooth))) : Rat) : Real)

/-- Labels of rows whose ndvi first difference exceeds 1.5 times the
standard deviation of the differences (lines 302-305).  When fewer than
two differences exist the standard deviation is NaN and every comparison
with it is false, so no labels qualify. -/
noncomputable def changeIncreasePoints (df : List SRow) : List Nat :=
  if 2 ≤ (validDiffs (diffCol (df.map SRow.ndvi_smooth))).length then
    ((df.map SRow.label).zip (diffCol (df.map SRow.ndvi_smooth))).filterMap fun p =>
      match p.2 with
      | some d => if ndviDiffStd df * (3/2) < (d : Real) then some p.1 else none
      | none => none
  else []

/-- Labels of rows whose ndvi first difference is below minus 1.5 times
the standard deviation of the differences (lines 303-306). -/
noncomputable def changeDecreasePoints (df : List SRow) : List Nat :=
  if 2 ≤ (validDiffs (diffCol (df.map SRow.ndvi_smooth))).length then
    ((df.map SRow.label).zip (diffCol (df.map SRow.ndvi_smooth))).filterMap fun p =>
      match p.2 with
      | some d => if (d : Real) < -(ndviDiffStd df * (3/2)) then some p.1 else none
      | none => none
  else []

/-- Pairing loop of _detect_change_point_blooms (lines 309-335): each
increase label is paired with the smallest larger decrease label; the
labels are then used as iloc positions (same label arithmetic as the
threshold detector), the span must last 14 to 120 days and peak above the
NDVI threshold. -/
noncomputable def changePointLoop (df : List SRow) (decreases : List Nat) :
    List Nat → Option (List Bloom)
  | [] => some []
  | s :: rest => do
    let ends := decreases.filter fun k => decide (s < k)
    match ends with
    | [] => changePointLoop df decreases rest
    | e0 :: es => do
      let e := es.foldl min e0
      let blm := (df.drop s).take (e + 1 - s)
      let firstRow ← blm.head?
      let lbl ← idxmaxLabel blm
      let peakIdx : Int := (s : Int) + (lbl : Int) - (firstRow.label : Int)
      let sRow ← iloc df (s : Int)
      let eRow ← iloc df (e : Int)
      let pRow ← iloc df peakIdx
      let duration := eRow.date - sRow.date
      let rest2 ← changePointLoop df decreases rest
      let b : Bloom :=
        { start_date := sRow.date, peak_date := pRow.date, end_date := eRow.date,
          duration_days := duration, peak_ndvi := pRow.ndvi_smooth,
          peak_evi := pRow.evi_smooth,
          bloom_intensity := (pRow.ndvi_smooth + pRow.evi_smooth) / 2,
          confidence_score := 6/10, detection_method := "change_point" }
      if 14 ≤ duration ∧ duration ≤ 120 ∧ ndviBloomThreshold < pRow.ndvi_smooth then
        pure (b :: rest2)
      else pure rest2

/-- Model of _detect_change_point_blooms (lines 292-341). -/
noncomputable def detectChangePointBlooms (df : List SRow) : List Bloom :=
  (changePointLoop df (changeDecreasePoints df) (changeIncreasePoints df)).getD []

theorem findPeriodsAux_all_false (mask : List Bool) (h : ∀ b ∈ mask, b = false) :
    ∀ i, findPeriodsAux mask i none = [] := by
  induction mask with
  | nil => intro i; rfl
  | cons b bs ih =>
    intro i
    have hb : b = false := h b (List.mem_cons_self b bs)
    subst hb
    simp only [findPeriodsAux]
    rw [if_neg (by simp)]
    exact ih (fun x hx => h x (List.mem_cons_of_mem _ hx)) (i + 1)

theorem localMaximaAux_const (col : List Rat) (c : Rat) (h : ∀ a ∈ col, a = c) :
    ∀ fuel i, 1 ≤ i →
      localMaximaAux (fun k => col.getD k 0) (col.length - 1) fuel i = [] := by
  intro fuel
  induction fuel with
  | zero => intro i _; rfl
  | succ f ih =>
    intro i hi
    unfold localMaximaAux
    by_cases hlt : i < col.length - 1
    · rw [if_pos hlt]
      have hxi : col.getD i 0 = c := by
        have hilen : i < col.length := by omega
        rw [List.getD_eq_getElem _ _ hilen]
        exact h _ (List.getElem_mem hilen)
      have hxi1 : col.getD (i - 1) 0 = c := by
        have hilen : i - 1 < col.length := by omega
        rw [List.getD_eq_getElem _ _ hilen]
        exact h _ (List.getElem_mem hilen)
      rw [if_neg (by rw [hxi, hxi1]; exact lt_irrefl c)]
      exact ih (i + 1) (by omega)
    · rw [if_neg hlt]

theorem detectPeakBlooms_const (df : List SRow) (c1 : Rat)
    (hc : ∀ r ∈ df, r.ndvi_smooth = c1) :
    detectPeakBlooms df = [] := by
  have hcol : ∀ a ∈ df.map SRow.ndvi_smooth, a = c1 := by
    intro a ha
    rcases List.mem_map.mp ha with ⟨r, hr, rfl⟩
    exact hc r hr
  have hlm : localMaxima (df.map SRow.ndvi_smooth) = [] :=
    localMaximaAux_const _ c1 hcol _ 1 (le_refl 1)
  simp only [detectPeakBlooms, findPeaks, hlm]
  simp [selectByDistance, argsortPrio, peakLoop]

theorem changePointLoop_nil (df : List SRow) :
    ∀ l, changePointLoop df [] l = some [] := by
  intro l
  induction l with
  | nil => rfl
  | cons s rest ih =>
    simp only [changePointLoop, List.filter_nil]
    exact ih

theorem map_sum_zero_of_nonneg (l : List Rat) (f : Rat → Rat) (hf : ∀ x, 0 ≤ f x)
    (h : (l.map f).sum = 0) : ∀ x ∈ l, f x = 0 := by
  induction l with
  | nil => intro x hx; simp at hx
  | cons a as ih =>
    simp only [List.map_cons, List.sum_cons] at h
    have hs : 0 ≤ (as.map f).sum := by
      refine List.sum_nonneg ?_
      intro y hy
      rcases List.mem_map.mp hy with ⟨z, _, rfl⟩
      exact hf z
    have ha : f a = 0 := le_antisymm (by linarith [hf a]) (hf a)
    intro x hx
    rcases List.mem_cons.mp hx with rfl | hx
    · exact ha
    · exact ih (by linarith [hf a]) x hx

theorem changePoint_empty_of_var_zero (df : List SRow)
    (hvar : sampleVar (validDiffs (diffCol (df.map SRow.ndvi_smooth))) = 0) :
    detectChangePointBlooms df = [] := by
  by_cases h2 : 2 ≤ (validDiffs (diffCol (df.map SRow.ndvi_smooth))).length
  · have hstd : ndviDiffStd df = 0 := by
      unfold ndviDiffStd
      rw [hvar]
      simp
    have hall : ∀ d ∈ validDiffs (diffCol (df.map SRow.ndvi_smooth)),
        d = (validDiffs (diffCol (df.map SRow.ndvi_smooth))).sum /
          ((validDiffs (diffCol (df.map SRow.ndvi_smooth))).length : Rat) := by
      have hnum : ((validDiffs (diffCol (df.map SRow.ndvi_smooth))).map fun x =>
          (x - (validDiffs (diffCol (df.map SRow.ndvi_smooth))).sum /
            ((validDiffs (diffCol (df.map SRow.ndvi_smooth))).length : Rat)) ^ 2).sum = 0 := by
        unfold sampleVar at hvar
        rw [if_neg (by omega)] at hvar
        have hden : (((validDiffs (diffCol (df.map SRow.ndvi_smooth))).length : Rat) - 1) ≠ 0 := by
          have hcast : (2 : Rat) ≤
              ((validDiffs (diffCol (df.map SRow.ndvi_smooth))).length : Rat) := by
            exact_mod_cast h2
          linarith
        rcases div_eq_zero_iff.mp hvar with hnum | hbad
        · exact hnum
        · exact absurd hbad hden
      intro d hd
      have hsq := map_sum_zero_of_nonneg _ _ (fun x => sq_nonneg _) hnum d hd
      have := pow_eq_zero_iff (n := 2) (by norm_num) |>.mp hsq
      linarith [sub_eq_zero.mp this]
    generalize hmdef : (validDiffs (diffCol (df.map SRow.ndvi_smooth))).sum /
        ((validDiffs (diffCol (df.map SRow.ndvi_smooth))).length : Rat) = m at hall
    rcases le_or_lt m 0 with hm | hm
    · have hinc : changeIncreasePoints df = [] := by
        unfold changeIncreasePoints
        rw [if_pos h2]
        refine List.filterMap_eq_nil_iff.mpr ?_
        intro p hp
        rcases p with ⟨lab, od⟩
        cases od with
        | none => rfl
        | some d =>
          have hdv : d ∈ validDiffs (diffCol (df.map SRow.ndvi_smooth)) := by
            refine List.mem_filterMap.mpr ⟨some d, ?_, rfl⟩
            exact (List.of_mem_zip hp).2
          have hdm := hall d hdv
          simp only
          rw [if_neg]
          rw [hstd, hdm]
          simp only [zero_mul]
          push_neg
          have hm2 : (m : Real) ≤ 0 := by exact_mod_cast hm
          exact hm2
      unfold detectChangePointBlooms
      rw [hinc]
      rfl
    · have hdec : changeDecreasePoints df = [] := by
        unfold changeDecreasePoints
        rw [if_pos h2]
        refine List.filterMap_eq_nil_iff.mpr ?_
        intro p hp
        rcases p with ⟨lab, od⟩
        cases od with
        | none => rfl
        | some d =>
          have hdv : d ∈ validDiffs (diffCol (df.map SRow.ndvi_smooth)) := by
            refine List.mem_filterMap.mpr ⟨some d, ?_, rfl⟩
            exact (List.of_mem_zip hp).2
          have hdm := hall d hdv
          simp only
          rw [if_neg]
          rw [hstd, hdm]
          simp only [zero_mul, neg_zero]
          push_neg
          have hm2 : (0 : Real) ≤ (m : Real) := by exact_mod_cast le_of_lt hm
          exact hm2
      unfold detectChangePointBlooms
      rw [hdec, changePointLoop_nil]
      rfl
  · have hinc : changeIncreasePoints df = [] := by
      unfold changeIncreasePoints
      rw [if_neg h2]
    unfold detectChangePointBlooms
    rw [hinc]
    rfl

/-- Claim C7 (amended): on a constant cleaned series whose NDVI or EVI
does not exceed its threshold (in particular NDVI = 0.1, EVI = 0.05), all
three detectors return the empty list; the peak and change-point
detectors return the empty list for every constant series, and the
change-point detector yields no candidates whenever the sample variance of
the smoothed-NDVI first differences is 0. -/
theorem constant_series_detectors_empty (df : List SRow) (c1 c2 : Rat)
    (hc : ∀ r ∈ df, r.ndvi_smooth = c1 ∧ r.evi_smooth = c2) :
    (c1 ≤ ndviBloomThreshold ∨ c2 ≤ eviBloomThreshold → detectThresholdBlooms df = [])
    ∧ detectPeakBlooms df = []
    ∧ detectChangePointBlooms df = []
    ∧ ∀ df2 : List SRow,
        sampleVar (validDiffs (diffCol (df2.map SRow.ndvi_smooth))) = 0 →
          detectChangePointBlooms df2 = [] := by
  refine ⟨?_, ?_, ?_, fun df2 h => changePoint_empty_of_var_zero df2 h⟩
  · intro hth
    have hmaskf : ∀ b ∈ bloomMask df, b = false := by
      intro b hb
      rcases List.mem_map.mp hb with ⟨r, hr, rfl⟩
      rcases hc r hr with ⟨h1, h2⟩
      rcases hth with hth | hth
      · have hfalse : decide (ndviBloomThreshold < r.ndvi_smooth) = false := by
          rw [decide_eq_false_iff_not, h1]
          exact not_lt.mpr hth
        rw [hfalse, Bool.false_and]
      · have hfalse : decide (eviBloomThreshold < r.evi_smooth) = false := by
          rw [decide_eq_false_iff_not, h2]
          exact not_lt.mpr hth
        rw [hfalse, Bool.and_false]
    unfold detectThresholdBlooms findContinuousPeriods
    rw [findPeriodsAux_all_false _ hmaskf 0]
    rfl
  · exact detectPeakBlooms_const df c1 (fun r hr => (hc r hr).1)
  · have hdiffzero : ∀ d ∈ validDiffs (diffCol (df.map SRow.ndvi_smooth)), d = 0 := by
      intro d hd
      rcases List.mem_filterMap.mp hd with ⟨od, hod, hid⟩
      simp only [id] at hid
      subst hid
      cases hcolcase : df.map SRow.ndvi_smooth with
      | nil => rw [hcolcase] at hod; simp [diffCol] at hod
      | cons a rest =>
        rw [hcolcase] at hod
        simp only [diffCol] at hod
        rcases List.mem_cons.mp hod with hbad | hmem
        · exact Option.noConfusion hbad
        · rcases List.mem_map.mp hmem with ⟨p, hp, hpd⟩
          have hfst : p.1 ∈ df.map SRow.ndvi_smooth := by
            rw [hcolcase]
            exact (List.of_mem_zip hp).1
          have hsnd : p.2 ∈ df.map SRow.ndvi_smooth := by
            rw [hcolcase]
            exact List.mem_of_mem_tail (List.of_mem_zip hp).2
          have hc1 : ∀ a ∈ df.map SRow.ndvi_smooth, a = c1 := by
            intro a ha
            rcases List.mem_map.mp ha with ⟨r, hr, rfl⟩
            exact (hc r hr).1
          have := hpd
          simp only [Option.some.injEq] at this
          rw [← this, hc1 p.1 hfst, hc1 p.2 hsnd]
          ring
    have hvar0 : sampleVar (validDiffs (diffCol (df.map SRow.ndvi_smooth))) = 0 := by
      by_cases hl : (validDiffs (diffCol (df.map SRow.ndvi_smooth))).length ≤ 1
      · simp [sampleVar, hl]
      · unfold sampleVar
        rw [if_neg hl]
        have hsum : (validDiffs (diffCol (df.map SRow.ndvi_smooth))).sum = 0 :=
          List.sum_eq_zero hdiffzero
        have hsq : ((validDiffs (diffCol (df.map SRow.ndvi_smooth))).map fun x =>
            (x - (validDiffs (diffCol (df.map SRow.ndvi_smooth))).sum /
              ((validDiffs (diffCol (df.map SRow.ndvi_smooth))).length : Rat)) ^ 2).sum = 0 := by
          refine List.sum_eq_zero ?_
          intro y hy
          rcases List.mem_map.mp hy with ⟨z, hz, rfl⟩
          rw [hdiffzero z hz, hsum]
          simp
        rw [hsq]
        simp
    exact changePoint_empty_of_var_zero df hvar0

/-- Concrete constant series with above-threshold values: three samples
with smoothed NDVI 1/2 and smoothed EVI 2/5. -/
def exConstHigh : List SRow :=
  [{ label := 0, date := 0, ndvi := 1/2, evi := 2/5, ndvi_smooth := 1/2, evi_smooth := 2/5 },
   { label := 1, date := 16, ndvi := 1/2, evi := 2/5, ndvi_smooth := 1/2, evi_smooth := 2/5 },
   { label := 2, date := 32, ndvi := 1/2, evi := 2/5, ndvi_smooth := 1/2, evi_smooth := 2/5 }]

/-- Counterexample to claim C7 as stated: a constant series with values
above both thresholds makes _detect_threshold_blooms emit one candidate
covering the entire series, so not every constant series yields zero
candidates from all three detectors. -/
theorem constant_series_threshold_nonempty :
    (exConstHigh.all fun r =>
      decide (r.ndvi_smooth = 1/2) && decide (r.evi_smooth = 2/5)) = true
    ∧ detectThresholdBlooms exConstHigh =
      [{ start_date := 0, peak_date := 0, end_date := 32, duration_days := 32,
         peak_ndvi := 1/2, peak_evi := 2/5, bloom_intensity := 9/20,
         confidence_score := 7/10, detection_method := "threshold" }]
    ∧ detectThresholdBlooms exConstHigh ≠ [] := by
  refine ⟨by norm_num [exConstHigh], ?_, ?_⟩
  · norm_num [detectThresholdBlooms, thresholdLoop, mkThresholdBloom, findContinuousPeriods,
      findPeriodsAux, bloomMask, idxmaxLabel, iloc, exConstHigh, ndviBloomThreshold,
      eviBloomThreshold, Option.bind, Int.toNat, List.getElem_cons_succ,
      List.getElem_cons_zero]
  · intro hcontra
    have := hcontra
    rw [show detectThresholdBlooms exConstHigh =
        [{ start_date := 0, peak_date := 0, end_date := 32, duration_days := 32,
           peak_ndvi := 1/2, peak_evi := 2/5, bloom_intensity := 9/20,
           confidence_score := 7/10, detection_method := "threshold" }] from by
      norm_num [detectThresholdBlooms, thresholdLoop, mkThresholdBloom, findContinuousPeriods,
        findPeriodsAux, bloomMask, idxmaxLabel, iloc, exConstHigh, ndviBloomThreshold,
        eviBloomThreshold, Option.bind, Int.toNat, List.getElem_cons_succ,
        List.getElem_cons_zero]] at this
    simp at this

/-- Concrete constant sub-threshold series: NDVI 1/10, EVI 1/20. -/
def exConstLow : List SRow :=
  [{ label := 0, date := 0, ndvi := 1/10, evi := 1/20, ndvi_smooth := 1/10, evi_smooth := 1/20 },
   { label := 1, date := 16, ndvi := 1/10, evi := 1/20, ndvi_smooth := 1/10, evi_smooth := 1/20 },
   { label := 2, date := 32, ndvi := 1/10, evi := 1/20, ndvi_smooth := 1/10, evi_smooth := 1/20 }]

theorem constant_series_detectors_empty_witness :
    detectThresholdBlooms exConstLow = []
    ∧ detectPeakBlooms exConstLow = []
    ∧ detectChangePointBlooms exConstLow = []
    ∧ sampleVar (validDiffs (diffCol (exConstLow.map SRow.ndvi_smooth))) = 0 := by
  have hvar : sampleVar (validDiffs (diffCol (exConstLow.map SRow.ndvi_smooth))) = 0 := by
    norm_num [sampleVar, validDiffs, diffCol, exConstLow, List.filterMap_cons, id_eq]
  have h := constant_series_detectors_empty exConstLow (1/10) (1/20)
    (by intro r hr; fin_cases hr <;> norm_num [exConstLow])
  exact ⟨h.1 (by norm_num [ndviBloomThreshold]), h.2.1, h.2.2.2 exConstLow hvar, hvar⟩

/-- One phenology phase marker: date and smoothed NDVI value. -/
structure PhasePoint where
  date : Int
  ndvi_value : Rat
deriving DecidableEq, Repr

/-- Phenology phases as _detect_phenology_phases would build them
(phenology_service.py lines 247-263); start and end of season are
optional in the source dict. -/
structure PhenologyPhases where
  start_of_season : Option PhasePoint
  peak_of_season : PhasePoint
  end_of_season : Option PhasePoint
deriving DecidableEq, Repr

/-- Models calling .strftime (or .timetuple) on an element of
Series.values for a datetime64 column: the elements are numpy.datetime64
scalars, which have no such attribute, so the call raises AttributeError;
modelled as failure. -/
def strftimeDatetime64 (_date : Int) : Option Int := none

/-- First index of the maximum of a list (np.argmax); fails on an empty
array like numpy does. -/
def argmaxIdxAux : List Rat → Nat → Rat → Nat → Nat
  | [], _, _, best => best
  | x :: xs, i, bv, best =>
    if bv < x then argmaxIdxAux xs (i + 1) x i else argmaxIdxAux xs (i + 1) bv best

def argmaxIdx? (vals : List Rat) : Option Nat :=
  match vals with
  | [] => none
  | v :: vs => some (argmaxIdxAux vs 1 v 0)

/-- Model of _detect_phenology_phases (phenology_service.py lines
211-289) on a series of (date, smoothed NDVI) samples.  The body computes
baseline, amplitude, the SOS/POS/EOS indices, and then formats the dates
of the phase dict by calling .strftime on numpy.datetime64 scalars taken
from Series.values; that call raises AttributeError, the handler at line
287 catches it and returns the empty dict, modelled as none. -/
def detectPhenologyPhases (series : List (Int × Rat)) : Option PhenologyPhases := do
  let v := series.map Prod.snd
  let dates := series.map Prod.fst
  let baseline ← v.min?
  let vmax ← v.max?
  let amplitude := vmax - baseline
  let sosValue := baseline + amplitude * (2/10)
  let eosValue := baseline + amplitude * (2/10)
  let sosIdx := v.findIdx? fun x => decide (sosValue ≤ x)
  let posIdx ← argmaxIdx? v
  let eosIdx :=
    (((v.drop posIdx).findIdx? fun x => decide (x < eosValue)).map (· + posIdx)).getD
      (v.length - 1)
  let sosPoint ← match sosIdx with
    | none => pure (none : Option PhasePoint)
    | some s => do
        let _ ← strftimeDatetime64 (dates.getD s 0)
        pure (some ⟨dates.getD s 0, v.getD s 0⟩)
  let _ ← strftimeDatetime64 (dates.getD posIdx 0)
  pure
    { start_of_season := sosPoint
      peak_of_season := ⟨dates.getD posIdx 0, v.getD posIdx 0⟩
      end_of_season := some ⟨dates.getD eosIdx 0, v.getD eosIdx 0⟩ }

/-- Claim C4 (code divergence): _detect_phenology_phases never reports any
phase.  Reading the date column through Series.values yields
numpy.datetime64 scalars whose missing strftime/timetuple attributes make
the phase-dict construction raise AttributeError on every input, so the
except handler always returns the empty dict - peak_of_season is never
defined, contradicting the claim. -/
theorem phenology_phases_always_empty :
    (∀ series : List (Int × Rat), detectPhenologyPhases series = none)
    ∧ detectPhenologyPhases [(0, 2/10), (16, 5/10), (32, 3/10)] = none := by
  have hall : ∀ series : List (Int × Rat), detectPhenologyPhases series = none := by
    intro series
    unfold detectPhenologyPhases
    cases h1 : (series.map Prod.snd).min? with
    | none => simp [h1, Option.bind]
    | some baseline =>
      cases h2 : (series.map Prod.snd).max? with
      | none => simp [h1, h2, Option.bind]
      | some vmax =>
        cases h3 : argmaxIdx? (series.map Prod.snd) with
        | none => simp [h1, h2, h3, Option.bind]
        | some posIdx =>
          simp [h1, h2, h3, Option.bind, strftimeDatetime64]
          split <;> rfl
  exact ⟨hall, hall _⟩

/-- Maximum of a list of integers (head-seeded fold; only used on
nonempty lists). -/
def listMaxInt : List Int → Int
  | [] => 0
  | x :: xs => xs.foldl max x

/-- Minimum of a list of integers (head-seeded fold; only used on
nonempty lists). -/
def listMinInt : List Int → Int
  | [] => 0
  | x :: xs => xs.foldl min x

/-- Quality metrics record mirroring the dict built by
_assess_data_quality (phenology_service.py lines 386-396). -/
structure QualityMetrics where
  data_completeness : Rat
  temporal_completeness : Rat
  valid_observations : Nat
  total_observations : Nat
  max_gap_days : Int
  mean_gap_days : Rat
  large_gap_count : Nat
  overall_quality_score : Real
  quality_rating : String

/-- Consecutive date differences of the cleaned frame
(df date diff dropna, lines 369). -/
def dateDiffs (df : List SRow) : List Int :=
  ((df.map SRow.date).zip (df.map SRow.date).tail).map fun p => p.2 - p.1

/-- Temporal completeness factor (lines 360-365): valid observations
against the expected 16-day composite count over the covered span. -/
def temporalCompleteness (df : List SRow) : Rat :=
  if 1 < df.length then
    let dateRange : Int := listMaxInt (df.map SRow.date) - listMinInt (df.map SRow.date)
    let expected : Rat := (dateRange : Rat) / 16
    if 0 < expected then min 1 ((df.length : Rat) / expected) else 0
  else 0

/-- Count of gaps above max_gap_days = 32 (line 372). -/
def largeGapCount (df : List SRow) : Nat :=
  if 1 < df.length then ((dateDiffs df).filter fun g => decide (32 < g)).length else 0

/-- Observation-sufficiency factor min(1, valid/20) (line 378). -/
def qualityFactor1 (valid : Nat) : Rat := min 1 ((valid : Rat) / 20)

/-- Gap-penalty factor max(0, 1 - large_gap_count/valid) with the
division guarded for an empty frame (line 380). -/
def qualityFactor3 (df : List SRow) : Rat :=
  if 0 < df.length then max 0 (1 - (largeGapCount df : Rat) / (df.length : Rat)) else 0

/-- Variability factor min(1, std(ndvi_smooth)/0.2) (line 381).  With at
most one row pandas Series.std is NaN and Python min(1.0, NaN) returns
its first argument 1.0; otherwise the sample standard deviation is the
real square root of the rational sample variance. -/
noncomputable def qualityFactor4 (df : List SRow) : Real :=
  if df.length ≤ 1 then 1
  else min 1 (Real.sqrt ((sampleVar (df.map SRow.ndvi_smooth) : Rat) : Real) / (2/10))

/-- Composite quality score: the mean of the four factors (line 384). -/
noncomputable def overallQualityScore (df : List SRow) : Real :=
  ((qualityFactor1 df.length : Real) + (temporalCompleteness df : Real) +
    (qualityFactor3 df : Real) + qualityFactor4 df) / 4

/-- Model of _get_quality_rating (lines 404-413). -/
noncomputable def getQualityRating (s : Real) : String :=
  if 8/10 ≤ s then "excellent"
  else if 6/10 ≤ s then "good"
  else if 4/10 ≤ s then "fair"
  else "poor"

/-- Model of _assess_data_quality (lines 353-402). -/
noncomputable def assessDataQuality (df : List SRow) (rawCount : Nat) : QualityMetrics :=
  { data_completeness :=
      if 0 < rawCount then (df.length : Rat) / (rawCount : Rat) else 0
    temporal_completeness := temporalCompleteness df
    valid_observations := df.length
    total_observations := rawCount
    max_gap_days := if 1 < df.length then listMaxInt (dateDiffs df) else 0
    mean_gap_days :=
      if 1 < df.length then ((dateDiffs df).sum : Rat) / ((dateDiffs df).length : Rat) else 0
    large_gap_count := largeGapCount df
    overall_quality_score := overallQualityScore df
    quality_rating := getQualityRating (overallQualityScore df) }

theorem qualityFactor1_bounds (valid : Nat) :
    0 ≤ qualityFactor1 valid ∧ qualityFactor1 valid ≤ 1 := by
  unfold qualityFactor1
  constructor
  · exact le_min (by norm_num) (by positivity)
  · exact min_le_left _ _

theorem temporalCompleteness_bounds (df : List SRow) :
    0 ≤ temporalCompleteness df ∧ temporalCompleteness df ≤ 1 := by
  unfold temporalCompleteness
  by_cases h1 : 1 < df.length
  · rw [if_pos h1]
    by_cases h2 : (0 : Rat) <
        ((listMaxInt (df.map SRow.date) - listMinInt (df.map SRow.date) : Int) : Rat) / 16
    · rw [if_pos h2]
      constructor
      · exact le_min (by norm_num) (div_nonneg (by positivity) (le_of_lt h2))
      · exact min_le_left _ _
    · rw [if_neg h2]
      norm_num
  · rw [if_neg h1]
    norm_num

theorem qualityFactor3_bounds (df : List SRow) :
    0 ≤ qualityFactor3 df ∧ qualityFactor3 df ≤ 1 := by
  unfold qualityFactor3
  by_cases h : 0 < df.length
  · rw [if_pos h]
    constructor
    · exact le_max_left _ _
    · have hn : (0 : Rat) ≤ (largeGapCount df : Rat) / (df.length : Rat) := by positivity
      rw [max_le_iff]
      constructor <;> linarith
  · rw [if_neg h]
    norm_num

theorem qualityFactor4_bounds (df : List SRow) :
    0 ≤ qualityFactor4 df ∧ qualityFactor4 df ≤ 1 := by
  unfold qualityFactor4
  by_cases h : df.length ≤ 1
  · rw [if_pos h]
    norm_num
  · rw [if_neg h]
    constructor
    · refine le_min (by norm_num) ?_
      have := Real.sqrt_nonneg ((sampleVar (df.map SRow.ndvi_smooth) : Rat) : Real)
      positivity
    · exact min_le_left _ _

theorem getQualityRating_eq (s : Real) :
    (getQualityRating s = "excellent" ↔ 8/10 ≤ s)
    ∧ (getQualityRating s = "good" ↔ 6/10 ≤ s ∧ s < 8/10)
    ∧ (getQualityRating s = "fair" ↔ 4/10 ≤ s ∧ s < 6/10)
    ∧ (getQualityRating s = "poor" ↔ s < 4/10) := by
  unfold getQualityRating
  by_cases h8 : (8/10 : Real) ≤ s
  · have a : ¬ s < 8/10 := not_lt.mpr h8
    have b : ¬ s < 6/10 := not_lt.mpr (by linarith)
    have c : ¬ s < 4/10 := not_lt.mpr (by linarith)
    simp [h8, a, b, c]
  · rw [if_neg h8]
    by_cases h6 : (6/10 : Real) ≤ s
    · have a : s < 8/10 := not_le.mp h8
      have c6 : ¬ s < 6/10 := not_lt.mpr h6
      have c4 : ¬ s < 4/10 := not_lt.mpr (by linarith)
      simp [h8, h6, a, c6, c4]
    · rw [if_neg h6]
      by_cases h4 : (4/10 : Real) ≤ s
      · have a : s < 6/10 := not_le.mp h6
        have c : ¬ s < 4/10 := not_lt.mpr h4
        simp [h8, h6, h4, a, c]
      · have a : s < 4/10 := not_le.mp h4
        have b : s < 6/10 := by linarith
        simp [h8, h6, h4, a, b]

/-- Claim C8: the overall quality score is the mean of the four quality
factors, each factor lies in [0, 1], the score lies in [0, 1], and the
rating equals excellent, good, fair or poor exactly on the score bands
[0.8, inf), [0.6, 0.8), [0.4, 0.6) and (-inf, 0.4). -/
theorem quality_score_properties (df : List SRow) (rawCount : Nat) :
    (assessDataQuality df rawCount).overall_quality_score =
      ((qualityFactor1 df.length : Real) + (temporalCompleteness df : Real) +
        (qualityFactor3 df : Real) + qualityFactor4 df) / 4
    ∧ (0 ≤ qualityFactor1 df.length ∧ qualityFactor1 df.length ≤ 1)
    ∧ (0 ≤ temporalCompleteness df ∧ temporalCompleteness df ≤ 1)
    ∧ (0 ≤ qualityFactor3 df ∧ qualityFactor3 df ≤ 1)
    ∧ (0 ≤ qualityFactor4 df ∧ qualityFactor4 df ≤ 1)
    ∧ (0 ≤ (assessDataQuality df rawCount).overall_quality_score
        ∧ (assessDataQuality df rawCount).overall_quality_score ≤ 1)
    ∧ ((assessDataQuality df rawCount).quality_rating = "excellent"
        ↔ 8/10 ≤ (assessDataQuality df rawCount).overall_quality_score)
    ∧ ((assessDataQuality df rawCount).quality_rating = "good"
        ↔ 6/10 ≤ (assessDataQuality df rawCount).overall_quality_score
          ∧ (assessDataQuality df rawCount).overall_quality_score < 8/10)
    ∧ ((assessDataQuality df rawCount).quality_rating = "fair"
        ↔ 4/10 ≤ (assessDataQuality df rawCount).overall_quality_score
          ∧ (assessDataQuality df rawCount).overall_quality_score < 6/10)
    ∧ ((assessDataQuality df rawCount).quality_rating = "poor"
        ↔ (assessDataQuality df rawCount).overall_quality_score < 4/10) := by
  have hf1 := qualityFactor1_bounds df.length
  have hf2 := temporalCompleteness_bounds df
  have hf3 := qualityFactor3_bounds df
  have hf4 := qualityFactor4_bounds df
  have c10 : (0 : Real) ≤ (qualityFactor1 df.length : Real) := by exact_mod_cast hf1.1
  have c11 : (qualityFactor1 df.length : Real) ≤ 1 := by exact_mod_cast hf1.2
  have c20 : (0 : Real) ≤ (temporalCompleteness df : Real) := by exact_mod_cast hf2.1
  have c21 : (temporalCompleteness df : Real) ≤ 1 := by exact_mod_cast hf2.2
  have c30 : (0 : Real) ≤ (qualityFactor3 df : Real) := by exact_mod_cast hf3.1
  have c31 : (qualityFactor3 df : Real) ≤ 1 := by exact_mod_cast hf3.2
  have hs0 : 0 ≤ overallQualityScore df := by
    unfold overallQualityScore
    linarith [hf4.1]
  have hs1 : overallQualityScore df ≤ 1 := by
    unfold overallQualityScore
    linarith [hf4.2]
  have hr := getQualityRating_eq (overallQualityScore df)
  exact ⟨rfl, hf1, hf2, hf3, hf4, ⟨hs0, hs1⟩, hr.1, hr.2.1, hr.2.2.1, hr.2.2.2⟩

/-- Calendar month (1-12) of a day number counted from 1970-01-01,
following the standard civil-from-days conversion for the proleptic
Gregorian calendar (models pandas Timestamp.month). -/
def monthOfDay (z : Int) : Nat :=
  let doe := ((z + 719468).emod 146097).toNat
  let yoe := (doe - doe / 1460 + doe / 36524 - doe / 146096) / 365
  let doy := doe - (365 * yoe + yoe / 4 - yoe / 100)
  let mp := (5 * doy + 2) / 153
  if mp < 10 then mp + 3 else mp - 9

/-- One forecast sample as built by _generate_forecast (lines 535-539). -/
structure ForecastPoint where
  date : Int
  ndvi_forecast : Rat
  evi_forecast : Rat
deriving DecidableEq, Repr

/-- Predicted bloom window as built by _detect_forecast_blooms (lines
565-578). -/
structure ForecastBloom where
  start_date : Int
  peak_date : Int
  end_date : Int
  duration_days : Int
  predicted_peak_ndvi : Rat
  predicted_peak_evi : Rat
  bloom_probability : Rat
  ndvi_min : Rat
  ndvi_max : Rat
  date_uncertainty_days : Nat
deriving DecidableEq, Repr

/-- Monthly climatology from _extract_seasonal_patterns (lines 478-505):
mean smoothed NDVI and EVI per calendar month present in the history. -/
structure SeasonalPatterns where
  ndviMonthly : List (Nat × Rat)
  eviMonthly : List (Nat × Rat)
deriving DecidableEq, Repr

/-- Mean of a rational list (sum over length; only applied to nonempty
lists). -/
def meanOf (l : List Rat) : Rat := l.sum / (l.length : Rat)

/-- Model of _extract_seasonal_patterns restricted to the part the
forecaster reads (the monthly_averages table): per present month, the
mean of the smoothed columns.  On an empty frame the idxmax over the
empty monthly table raises and the except handler returns the empty dict,
modelled as none. -/
def extractSeasonalPatterns (df : List SRow) : Option SeasonalPatterns :=
  match df with
  | [] => none
  | _ :: _ =>
    let months := ((List.range 12).map (· + 1)).filter fun m =>
      df.any fun r => decide (monthOfDay r.date = m)
    some
      { ndviMonthly := months.map fun m =>
          (m, meanOf ((df.filter fun r => decide (monthOfDay r.date = m)).map SRow.ndvi_smooth))
        eviMonthly := months.map fun m =>
          (m, meanOf ((df.filter fun r => decide (monthOfDay r.date = m)).map SRow.evi_smooth)) }

/-- Dict lookup with default, as monthly_data.get(month, fallback). -/
def lookupMonth (t : List (Nat × Rat)) (m : Nat) (dflt : Rat) : Rat :=
  match t.find? fun p => decide (p.1 = m) with
  | some p => p.2
  | none => dflt

/-- Clip to [0, 1] as max(0, min(1, x)) (lines 537-538). -/
def clip01 (x : Rat) : Rat := max 0 (min 1 x)

/-- Model of _generate_forecast (lines 507-545).  The noise stream is the
injectable source of the two np.random.normal draws made for each
forecast day, in day order; the monthly climatology supplies the baseline
with fallbacks 0.3 and 0.2.  On an empty history frame the max over the
empty date column is NaT and building the forecast date range raises, so
the handler returns an empty frame. -/
def generateForecast (df : List SRow) (forecastDays : Nat) (sp : Option SeasonalPatterns)
    (noise : Nat → Rat × Rat) : List ForecastPoint :=
  match df.map SRow.date with
  | [] => []
  | d :: ds =>
    let lastDate := ds.foldl max d
    (List.range forecastDays).map fun i =>
      let date := lastDate + 1 + Int.ofNat i
      let m := monthOfDay date
      let baseN := match sp with
        | some s => lookupMonth s.ndviMonthly m (3/10)
        | none => 3/10
      let baseE := match sp with
        | some s => lookupMonth s.eviMonthly m (1/5)
        | none => 1/5
      let pair := noise i
      { date := date
        ndvi_forecast := clip01 (baseN + pair.1)
        evi_forecast := clip01 (baseE + pair.2) }

/-- Position of the first maximum of a rational list (Series.idxmax on a
freshly built frame, whose labels coincide with positions). -/
def idxmaxPosAux : List Rat → Nat → Rat → Nat → Nat
  | [], _, _, best => best
  | x :: xs, i, bv, best =>
    if bv < x then idxmaxPosAux xs (i + 1) x i else idxmaxPosAux xs (i + 1) bv best

def idxmaxPos (vals : List Rat) : Option Nat :=
  match vals with
  | [] => none
  | v :: vs => some (idxmaxPosAux vs 1 v 0)

/-- Loop of _detect_forecast_blooms over the detected periods (lines
560-579).  The forecast frame has a contiguous RangeIndex, so the
label-based peak arithmetic of the source equals plain position
arithmetic here. -/
def forecastLoop (fdf : List ForecastPoint) : List (Nat × Nat) → Option (List ForecastBloom)
  | [] => some []
  | (s, e) :: rest =>
    if (e : Int) - (s : Int) ≥ 2 then do
      let blm := (fdf.drop s).take (e + 1 - s)
      let off ← idxmaxPos (blm.map ForecastPoint.ndvi_forecast)
      let sRow ← fdf[s]?
      let pRow ← fdf[s + off]?
      let eRow ← fdf[e]?
      let rest2 ← forecastLoop fdf rest
      pure
        ({ start_date := sRow.date, peak_date := pRow.date, end_date := eRow.date,
           duration_days := eRow.date - sRow.date,
           predicted_peak_ndvi := pRow.ndvi_forecast,
           predicted_peak_evi := pRow.evi_forecast,
           bloom_probability := 7/10,
           ndvi_min := pRow.ndvi_forecast - 1/10,
           ndvi_max := pRow.ndvi_forecast + 1/10,
           date_uncertainty_days := 5 } :: rest2)
    else forecastLoop fdf rest

/-- Model of _detect_forecast_blooms (lines 547-585). -/
def detectForecastBlooms (fdf : List ForecastPoint) : List ForecastBloom :=
  match fdf with
  | [] => []
  | _ :: _ =>
    let mask := fdf.map fun r =>
      decide (ndviBloomThreshold < r.ndvi_forecast) && decide (eviBloomThreshold < r.evi_forecast)
    (forecastLoop fdf (findContinuousPeriods mask)).getD []

/-- Forecast pipeline of forecast_bloom_events restricted to the parts
the determinism claim covers: climatology extraction, forecast-point
generation, and predicted bloom windows, as a function of the cleaned
history and the injected noise stream. -/
def forecastRun (df : List SRow) (days : Nat) (noise : Nat → Rat × Rat) :
    List ForecastPoint × List ForecastBloom :=
  let fc := generateForecast df days (extractSeasonalPatterns df) noise
  (fc, detectForecastBlooms fc)

/-- Claim C9: the forecast is a pure function of the historical input and
the injected noise stream - two runs on identical history with
identically seeded noise produce identical ForecastPoint sequences and
identical predicted bloom windows. -/
theorem forecast_deterministic (df1 df2 : List SRow) (days : Nat)
    (noise1 noise2 : Nat → Rat × Rat)
    (hdf : df1 = df2) (hn : noise1 = noise2) :
    forecastRun df1 days noise1 = forecastRun df2 days noise2 := by
  subst hdf
  subst hn
  rfl

/-- Concrete two-month history for the determinism witness. -/
def dfHist : List SRow :=
  [{ label := 0, date := 18993, ndvi := 1/2, evi := 2/5, ndvi_smooth := 1/2, evi_smooth := 2/5 },
   { label := 1, date := 19009, ndvi := 3/5, evi := 2/5, ndvi_smooth := 3/5, evi_smooth := 2/5 }]

/-- Constant-zero noise stream for the determinism witness. -/
def noiseZero : Nat → Rat × Rat := fun _ => (0, 0)

theorem forecast_deterministic_witness :
    dfHist = dfHist ∧ noiseZero = noiseZero
    ∧ forecastRun dfHist 3 noiseZero = forecastRun dfHist 3 noiseZero :=
  ⟨rfl, rfl, forecast_deterministic dfHist dfHist 3 noiseZero noiseZero rfl rfl⟩

end BloomWatch
